import Mathlib

/-!
Verification of the lglaf partition/crypto core (src/laf_crypto.py and
src/partitions.py) against its natural-language specification.

The Python source is shallowly embedded: byte strings become `List Nat`
(each element a byte value), the USB transport becomes an explicit oracle
(environment) describing the outcome of each `comm.call`, and Python
exceptions become `Except` values.  Machine arithmetic is `Nat`/`Int`
with explicit `% 256` / `% 2^32` where the source wraps.
-/

/-- Transport-level error kinds distinguished by `laf_read`
(`usb.core.USBError` with `strerror` equal to Overflow, Operation timed
out, or anything else). -/
inductive TransportErr
  | overflow
  | timeout
  | other
deriving DecidableEq

/-- Errors raised by the embedded operations: transport faults, the
assertion-style protocol violations, and the precondition violations. -/
inductive Err
  | transport (e : TransportErr)
  | badReadEcho
  | badReadLength (expected actual : Nat)
  | badWriteEcho
  | badWriteOffset (expected actual : Nat)
  | badEraseEcho
  | unaligned
  | gptOverwrite
  | oversize (fileLen partSize : Nat)
  | unsupportedFw (proto : Nat)
  | invalidSectorCount (n : Nat)
  | unalignedSink (s : Nat)
  | unidentifiable
deriving DecidableEq

/-- Little-endian 4-byte encoding of a 32-bit argument
(struct.pack of an unsigned 32-bit value; the encoded value is the
argument reduced mod 2^32). -/
def le32 (n : Nat) : List Nat :=
  [n % 256, n / 256 % 256, n / 65536 % 256, n / 16777216 % 256]

/-- Modelled from the spec: the external frame codec makeRequest
(commandTag: 4 ASCII bytes, args: sequence of u32) -> bytes.  Only the
tag-and-argument region of the request header is relevant here: the tag
occupies bytes 0..4 and the little-endian u32 arguments follow from
byte 4.  The body and trailing header fields are not modelled. -/
def make_request (tag : List Nat) (args : List Nat) : List Nat :=
  tag ++ args.flatMap le32

deriving instance DecidableEq for Except

/-- Python pySlice b[a:c] on a byte string. -/
def pySlice (l : List Nat) (a c : Nat) : List Nat :=
  (l.drop a).take (c - a)

/-- struct.unpack_from of a little-endian u32 at a byte offset
(partitions.py read_uint32). -/
def read_uint32 (data : List Nat) (offset : Nat) : Nat :=
  data.getD offset 0 + 256 * data.getD (offset + 1) 0 +
    65536 * data.getD (offset + 2) 0 + 16777216 * data.getD (offset + 3) 0

/-- Command tag READ. -/
def readTag : List Nat := [82, 69, 65, 68]

/-- Command tag WRTE. -/
def wrteTag : List Nat := [87, 82, 84, 69]

/-- Command tag ERSE. -/
def erseTag : List Nat := [69, 82, 83, 69]

/-- Modelled from the spec: lglaf.int_as_byte packs one unsigned byte,
wrapping mod 256 (the spec: unsigned byte arithmetic, wraps mod 256).
The argument is an `Int` because the source subtracts before packing. -/
def intAsByte (v : Int) : Nat := (v % 256).toNat

/-- laf_crypto.key_transform loop body: the Python loop runs
`for x in range(32, 0, -1)` appending `int_as_byte(old_key[x-1] - (x % 0x0C))`;
this recursion counts `x` down from the given bound to 1. -/
def key_transform_go (old_key : List Nat) : Nat → List Nat
  | 0 => []
  | x + 1 =>
    intAsByte ((old_key.getD (x + 1 - 1) 0 : Int) - (((x + 1) % 12 : Nat) : Int)) ::
      key_transform_go old_key x

/-- laf_crypto.key_transform. -/
def key_transform (old_key : List Nat) : List Nat := key_transform_go old_key 32

/-- laf_crypto.xor_key loop body: `for i in range(8)` emits four bytes
`key[pos+j] ^ kilo_challenge[3-j]` and advances `pos` by 4. -/
def xor_go (key kilo_challenge : List Nat) : Nat → Nat → List Nat
  | _, 0 => []
  | pos, i + 1 =>
    intAsByte ((key.getD pos 0 ^^^ kilo_challenge.getD 3 0 : Nat) : Int) ::
    intAsByte ((key.getD (pos + 1) 0 ^^^ kilo_challenge.getD 2 0 : Nat) : Int) ::
    intAsByte ((key.getD (pos + 2) 0 ^^^ kilo_challenge.getD 1 0 : Nat) : Int) ::
    intAsByte ((key.getD (pos + 3) 0 ^^^ kilo_challenge.getD 0 0 : Nat) : Int) ::
    xor_go key kilo_challenge (pos + 4) i

/-- laf_crypto.xor_key. -/
def xor_key (key kilo_challenge : List Nat) : List Nat := xor_go key kilo_challenge 0 8

/-- The AES-ECB key computed by laf_crypto.encrypt_kilo_challenge before
it encrypts the fixed plaintext 0x00..0x0F:
`xored_key = xor_key(key_transform(encryption_key), kilo_challenge)`.
The cipher itself is the external crypto library and is not modelled. -/
def encrypt_kilo_challenge_key (encryption_key kilo_challenge : List Nat) : List Nat :=
  xor_key (key_transform encryption_key) kilo_challenge

/-- Stated from the claim (C1, spec Key transform): working[i] =
(session_key[31-i] - ((32-i) mod 12)) mod 256 for i in 0..32. -/
def working_spec (session_key : List Nat) : List Nat :=
  (List.range 32).map (fun i =>
    (((session_key.getD (31 - i) 0 : Int) - (((32 - i) % 12 : Nat) : Int)) % 256).toNat)

/-- Stated from the claim (C1, spec Key whitening): whitened[4g+j] =
working[4g+j] xor challenge[3-j]; with i = 4g+j this is
working[i] xor challenge[3 - i mod 4]. -/
def whitened_spec (session_key challenge : List Nat) : List Nat :=
  (List.range 32).map (fun i =>
    (working_spec session_key).getD i 0 ^^^ challenge.getD (3 - i % 4) 0)

theorem intAsByte_lt (v : Int) : intAsByte v < 256 := by
  unfold intAsByte
  have h1 : v % 256 < 256 := Int.emod_lt_of_pos v (by norm_num)
  omega

theorem intAsByte_of_lt (n : Nat) (h : n < 256) : intAsByte (n : Int) = n := by
  unfold intAsByte
  rw [Int.emod_eq_of_lt (by positivity) (by exact_mod_cast h)]
  simp

theorem key_transform_go_length (key : List Nat) (x : Nat) :
    (key_transform_go key x).length = x := by
  induction x with
  | zero => rfl
  | succ n ih => simp [key_transform_go, ih]

theorem key_transform_go_getD (key : List Nat) :
    ∀ x i, i < x → (key_transform_go key x).getD i 0 =
      intAsByte ((key.getD (x - 1 - i) 0 : Int) - (((x - i) % 12 : Nat) : Int)) := by
  intro x
  induction x with
  | zero => intro i h; omega
  | succ n ih =>
    intro i h
    match i with
    | 0 => simp [key_transform_go]
    | j + 1 =>
      have h2 : j < n := by omega
      have e1 : n + 1 - 1 - (j + 1) = n - 1 - j := by omega
      have e2 : n + 1 - (j + 1) = n - j := by omega
      simp only [key_transform_go, List.getD_cons_succ, e1, e2]
      exact ih j h2

theorem xor_go_length (key chal : List Nat) :
    ∀ n pos, (xor_go key chal pos n).length = 4 * n := by
  intro n
  induction n with
  | zero => intro pos; rfl
  | succ m ih =>
    intro pos
    simp only [xor_go, List.length_cons, ih]
    omega

theorem xor_go_getD (key chal : List Nat) :
    ∀ n pos i, i < 4 * n → (xor_go key chal pos n).getD i 0 =
      intAsByte ((key.getD (pos + i) 0 ^^^ chal.getD (3 - i % 4) 0 : Nat) : Int) := by
  intro n
  induction n with
  | zero => intro pos i h; omega
  | succ m ih =>
    intro pos i h
    match i with
    | 0 => simp [xor_go]
    | 1 => simp [xor_go]
    | 2 => simp [xor_go]
    | 3 => simp [xor_go]
    | j + 4 =>
      have h2 : j < 4 * m := by omega
      have e1 : pos + (j + 4) = pos + 4 + j := by omega
      have e2 : (j + 4) % 4 = j % 4 := by omega
      simp only [xor_go, List.getD_cons_succ, e1, e2]
      exact ih (pos + 4) j h2

theorem getD_lt_of_mem_lt (l : List Nat) (j : Nat) (h : ∀ c ∈ l, c < 256) :
    l.getD j 0 < 256 := by
  by_cases hj : j < l.length
  · rw [List.getD_eq_getElem l 0 hj]
    exact h _ (List.getElem_mem hj)
  · rw [List.getD_eq_default l 0 (by omega)]
    norm_num

/-- C1: for every 32-byte session key and 4-byte challenge, the cipher key
used by the Authenticator (encrypt_kilo_challenge) to encrypt the fixed
plaintext is exactly the whitened working key given by the claimed
formulas: working[i] = (session_key[31-i] - ((32-i) mod 12)) mod 256 and
whitened[4g+j] = working[4g+j] xor challenge[3-j]. -/
theorem kilo_cipher_key_matches_spec :
    ∀ session_key kilo_challenge : List Nat,
      session_key.length = 32 → kilo_challenge.length = 4 →
      (∀ c ∈ kilo_challenge, c < 256) →
      encrypt_kilo_challenge_key session_key kilo_challenge =
        whitened_spec session_key kilo_challenge := by
  intro sk chal _hsk _hch hc
  have hlen1 : (encrypt_kilo_challenge_key sk chal).length = 32 := by
    simp [encrypt_kilo_challenge_key, xor_key, xor_go_length]
  have hlen2 : (whitened_spec sk chal).length = 32 := by
    simp [whitened_spec]
  apply List.ext_getElem (by omega)
  intro i h1 h2
  have hi : i < 32 := by omega
  have hwlen : i < (working_spec sk).length := by simp [working_spec]; omega
  have lhs1 : (encrypt_kilo_challenge_key sk chal)[i] =
      intAsByte (((key_transform sk).getD (0 + i) 0 ^^^ chal.getD (3 - i % 4) 0 : Nat) : Int) := by
    rw [← List.getD_eq_getElem _ 0 h1]
    simp only [encrypt_kilo_challenge_key, xor_key]
    exact xor_go_getD (key_transform sk) chal 8 0 i (by omega)
  have hkt : (key_transform sk).getD i 0 =
      intAsByte ((sk.getD (31 - i) 0 : Int) - (((32 - i) % 12 : Nat) : Int)) := by
    have e1 : (32 : Nat) - 1 - i = 31 - i := by omega
    simpa [key_transform, e1] using key_transform_go_getD sk 32 i hi
  have hw : (working_spec sk).getD i 0 =
      intAsByte ((sk.getD (31 - i) 0 : Int) - (((32 - i) % 12 : Nat) : Int)) := by
    rw [List.getD_eq_getElem _ 0 hwlen]
    simp [working_spec, intAsByte]
  have rhs1 : (whitened_spec sk chal)[i] =
      (working_spec sk).getD i 0 ^^^ chal.getD (3 - i % 4) 0 := by
    simp [whitened_spec]
  rw [lhs1, rhs1, Nat.zero_add, hkt, ← hw]
  have hW : (working_spec sk).getD i 0 < 256 := by rw [hw]; exact intAsByte_lt _
  have hC : chal.getD (3 - i % 4) 0 < 256 := getD_lt_of_mem_lt chal _ hc
  have hx : ((working_spec sk).getD i 0 ^^^ chal.getD (3 - i % 4) 0) < 256 := by
    have h256 : (256 : Nat) = 2 ^ 8 := by norm_num
    rw [h256] at hW hC ⊢
    exact Nat.xor_lt_two_pow hW hC
  exact intAsByte_of_lt _ hx

/-- Witness for kilo_cipher_key_matches_spec at a concrete key and
challenge. -/
theorem kilo_cipher_key_matches_spec_witness :
    encrypt_kilo_challenge_key (List.range 32) [17, 34, 51, 68] =
      whitened_spec (List.range 32) [17, 34, 51, 68] :=
  kilo_cipher_key_matches_spec (List.range 32) [17, 34, 51, 68]
    (by decide) (by decide) (by decide)

/-- Observable channel events emitted by laf_read: issuing the READ
command, the overflow-recovery reset and flush read (comm.reset and
comm._read(-1)), the timeout-recovery close / sleep(3) / re-init /
best-effort hello, and the recovery CLSE and OPEN commands. -/
inductive UsbEvent
  | callRead (cmd : List Nat)
  | resetChannel
  | flushRead
  | closeChannel
  | sleep3
  | reinitChannel
  | hello
  | callClse (fd : Nat)
  | callOpen
deriving DecidableEq

/-- Transport oracle for laf_read: the outcome of each comm.call of the
READ command per outer attempt; whether each overflow-flush iteration
succeeds; the outcome of the recovery CLSE call (none means success);
and the outcome of the recovery OPEN call (response header on success). -/
structure ReadEnv where
  readResult : Nat → Sum TransportErr (List Nat × List Nat)
  flushOk : Nat → Nat → Bool
  clseResult : Nat → Option TransportErr
  openResult : Nat → Sum TransportErr (List Nat)

/-- The inner overflow-recovery loop of laf_read: up to 3 iterations of
comm.reset plus comm._read(-1), stopping at the first success;
usb.core.USBError during a flush iteration is swallowed. -/
def flush_go (ok : Nat → Bool) : Nat → Nat → List UsbEvent
  | 0, _ => []
  | n + 1, i =>
    UsbEvent.resetChannel :: UsbEvent.flushRead ::
      (if ok i then [] else flush_go ok n (i + 1))

/-- Events of one whole overflow-recovery flush phase. -/
def flush_events (ok : Nat → Bool) : List UsbEvent := flush_go ok 3 0

/-- The READ request bytes: make_request(b'READ', args=[fd_num, offset, size]). -/
def mkReadCmd (fd offset size : Nat) : List Nat :=
  make_request readTag [fd, offset, size]

/-- The retry loop of laf_read (`for attempt in range(3)`).  The first
argument counts the remaining attempts (3 at entry; the source raises on
the last attempt, attempt == 2, i.e. when one attempt remains).  On
success it returns the response header, body, the current file
descriptor and the current (possibly rebuilt) READ command.  Overflow:
reset and flush, then re-issue the same command.  Timeout: close the
channel, sleep 3 s, re-init, best-effort hello (errors swallowed), CLSE
the stale descriptor, OPEN the default logical unit (body b'\0'), take
the new fd from byte offset 4 of the OPEN response header, rebuild the
READ command, retry.  Any other transport error propagates at once. -/
def read_go (env : ReadEnv) (offset size : Nat) :
    Nat → Nat → Nat → List Nat →
      List UsbEvent × Except Err (List Nat × List Nat × Nat × List Nat)
  | 0, _, _, _ => ([], .error (.transport .other))
  | remaining + 1, attempt, fd, cmd =>
    match env.readResult attempt with
    | .inr (header, response) => ([.callRead cmd], .ok (header, response, fd, cmd))
    | .inl e =>
      if remaining = 0 then ([.callRead cmd], .error (.transport e))
      else
        match e with
        | .overflow =>
          let rest := read_go env offset size remaining (attempt + 1) fd cmd
          (.callRead cmd :: (flush_events (env.flushOk attempt) ++ rest.1), rest.2)
        | .timeout =>
          let base : List UsbEvent :=
            [.callRead cmd, .closeChannel, .sleep3, .reinitChannel, .hello, .callClse fd]
          match env.clseResult attempt with
          | some e2 => (base, .error (.transport e2))
          | none =>
            match env.openResult attempt with
            | .inl e2 => (base ++ [.callOpen], .error (.transport e2))
            | .inr openHeader =>
              let fd2 := read_uint32 openHeader 4
              let cmd2 := mkReadCmd fd2 offset size
              let rest := read_go env offset size remaining (attempt + 1) fd2 cmd2
              (base ++ .callOpen :: rest.1, rest.2)
        | .other => ([.callRead cmd], .error (.transport e))

/-- partitions.laf_read: run the bounded retry loop, then validate that
the response echoes bytes 4..16 of the (current) READ request and that
the payload length equals the requested size; either mismatch is a fatal
assertion, raised after the loop and never retried.  Returns the payload
and the possibly-updated file descriptor. -/
def laf_read (env : ReadEnv) (fd offset size : Nat) :
    List UsbEvent × Except Err (List Nat × Nat) :=
  let cmd := mkReadCmd fd offset size
  let r := read_go env offset size 3 0 fd cmd
  match r.2 with
  | .error e => (r.1, .error e)
  | .ok (header, response, fd2, cmd2) =>
    if pySlice cmd2 4 16 ≠ pySlice header 4 16 then (r.1, .error .badReadEcho)
    else if response.length ≠ size then
      (r.1, .error (.badReadLength size response.length))
    else (r.1, .ok (response, fd2))

/-- Number of READ commands issued in an event trace. -/
def countReads (tr : List UsbEvent) : Nat :=
  tr.countP (fun e => match e with | .callRead _ => true | _ => false)

theorem countReads_nil : countReads [] = 0 := rfl

theorem countReads_cons (e : UsbEvent) (tr : List UsbEvent) :
    countReads (e :: tr) =
      (match e with | .callRead _ => 1 | _ => 0) + countReads tr := by
  cases e <;> simp [countReads, List.countP_cons] <;> omega

theorem countReads_append (a b : List UsbEvent) :
    countReads (a ++ b) = countReads a + countReads b := by
  simp [countReads, List.countP_append]

theorem countReads_flush_go (ok : Nat → Bool) :
    ∀ n i, countReads (flush_go ok n i) = 0 := by
  intro n
  induction n with
  | zero => intro i; rfl
  | succ m ih =>
    intro i
    by_cases h : ok i <;>
      simp [flush_go, h, countReads_cons, countReads_nil, ih]

theorem countReads_read_go (env : ReadEnv) (offset size : Nat) :
    ∀ r a fd cmd, countReads (read_go env offset size r a fd cmd).1 ≤ r := by
  intro r
  induction r with
  | zero => intro a fd cmd; simp [read_go, countReads_nil]
  | succ m ih =>
    intro a fd cmd
    rcases hr : env.readResult a with e | p
    · by_cases hm : m = 0
      · subst hm
        cases e <;> simp [read_go, hr, countReads_cons, countReads_nil]
      · cases e
        · simp only [read_go, hr]
          rw [if_neg hm]
          simp only [countReads_cons, countReads_append, flush_events,
            countReads_flush_go]
          have := ih (a + 1) fd cmd
          omega
        · simp only [read_go, hr]
          rw [if_neg hm]
          rcases hc : env.clseResult a with _ | e2
          · rcases ho : env.openResult a with e3 | openHeader
            · simp [hc, ho, countReads_cons, countReads_append, countReads_nil]
            · simp only [hc, ho, countReads_append, countReads_cons,
                countReads_nil]
              have := ih (a + 1) (read_uint32 openHeader 4)
                (mkReadCmd (read_uint32 openHeader 4) offset size)
              omega
          · simp [hc, countReads_cons, countReads_nil]
        · simp [read_go, hr, hm, countReads_cons, countReads_nil]
    · simp [read_go, hr, countReads_cons, countReads_nil]

theorem laf_read_fst (env : ReadEnv) (fd offset size : Nat) :
    (laf_read env fd offset size).1 =
      (read_go env offset size 3 0 fd (mkReadCmd fd offset size)).1 := by
  unfold laf_read
  rcases h : (read_go env offset size 3 0 fd (mkReadCmd fd offset size)).2 with e | r
  · simp [h]
  · rcases r with ⟨header, response, fd2, cmd2⟩
    simp only [h]
    split <;> simp <;> split <;> simp

theorem laf_read_snd_err (env : ReadEnv) (fd offset size : Nat) (e : Err)
    (herr : (read_go env offset size 3 0 fd (mkReadCmd fd offset size)).2 = .error e) :
    (laf_read env fd offset size).2 = .error e := by
  unfold laf_read
  simp only [herr]

theorem laf_read_snd_ok (env : ReadEnv) (fd offset size : Nat)
    (header response : List Nat) (fd2 : Nat) (cmd2 : List Nat)
    (hok : (read_go env offset size 3 0 fd (mkReadCmd fd offset size)).2 =
      .ok (header, response, fd2, cmd2)) :
    (laf_read env fd offset size).2 =
      (if pySlice cmd2 4 16 ≠ pySlice header 4 16 then .error .badReadEcho
       else if response.length ≠ size then .error (.badReadLength size response.length)
       else .ok (response, fd2)) := by
  unfold laf_read
  simp only [hok]
  split
  · simp
  · split <;> simp

/-- C3: laf_read issues the READ command at most 3 times in total; a
transport overflow leads to reset-and-flush (flush errors swallowed)
followed by re-issuing the same READ command; a transport timeout leads
to channel close, cooldown sleep, re-init, best-effort hello, CLSE of
the stale descriptor, OPEN of the default logical unit yielding a new
descriptor, and a rebuilt READ command for the retry; any other
transport error propagates immediately after a single READ; and when all
three attempts fail the last error propagates to the caller. -/
theorem laf_read_retry_policy (env : ReadEnv) (fd offset size : Nat) :
    countReads (laf_read env fd offset size).1 ≤ 3 ∧
    (env.readResult 0 = .inl .other →
      laf_read env fd offset size =
        ([.callRead (mkReadCmd fd offset size)], .error (.transport .other))) ∧
    (env.readResult 0 = .inl .overflow →
      (laf_read env fd offset size).1 =
        .callRead (mkReadCmd fd offset size) ::
          (flush_events (env.flushOk 0) ++
            (read_go env offset size 2 1 fd (mkReadCmd fd offset size)).1)) ∧
    (∀ openHeader, env.readResult 0 = .inl .timeout → env.clseResult 0 = none →
      env.openResult 0 = .inr openHeader →
      (laf_read env fd offset size).1 =
        .callRead (mkReadCmd fd offset size) :: .closeChannel :: .sleep3 ::
          .reinitChannel :: .hello :: .callClse fd :: .callOpen ::
          (read_go env offset size 2 1 (read_uint32 openHeader 4)
            (mkReadCmd (read_uint32 openHeader 4) offset size)).1) ∧
    (∀ e, env.readResult 0 = .inl .overflow → env.readResult 1 = .inl .overflow →
      env.readResult 2 = .inl e →
      (laf_read env fd offset size).2 = .error (.transport e)) := by
  refine ⟨?_, ?_, ?_, ?_, ?_⟩
  · rw [laf_read_fst]
    exact countReads_read_go env offset size 3 0 fd _
  · intro h
    simp [laf_read, read_go, h]
  · intro h
    rw [laf_read_fst]
    simp [read_go, h]
  · intro openHeader h hc ho
    rw [laf_read_fst]
    simp [read_go, h, hc, ho]
  · intro e h0 h1 h2
    have herr : (read_go env offset size 3 0 fd (mkReadCmd fd offset size)).2 =
        .error (.transport e) := by
      simp [read_go, h0, h1, h2]
    exact laf_read_snd_err env fd offset size _ herr

/-- Witness for laf_read_retry_policy: an environment whose first READ
attempt fails with an unrecognized transport error propagates at once. -/
theorem laf_read_retry_policy_witness :
    laf_read ⟨fun _ => Sum.inl .other, fun _ _ => true, fun _ => none,
        fun _ => Sum.inl .other⟩ 1 0 4 =
      ([.callRead (mkReadCmd 1 0 4)], .error (.transport .other)) :=
  (laf_read_retry_policy ⟨fun _ => Sum.inl .other, fun _ _ => true, fun _ => none,
    fun _ => Sum.inl .other⟩ 1 0 4).2.1 rfl

/-- C2: whenever laf_read returns data, the payload is exactly the
requested size and the response header echoed bytes 4..16 of the READ
request; if either the echoed region or the payload length differs, the
call fails with a fatal protocol-violation error, and the failure is not
retried (the event trace is exactly the trace of the attempt loop, with
no further READ issued after validation). -/
theorem laf_read_validates (env : ReadEnv) (fd offset size : Nat) :
    (∀ response fd2, (laf_read env fd offset size).2 = .ok (response, fd2) →
      response.length = size) ∧
    (∀ header response fd2 cmd2,
      (read_go env offset size 3 0 fd (mkReadCmd fd offset size)).2 =
        .ok (header, response, fd2, cmd2) →
      ((laf_read env fd offset size).2 = .ok (response, fd2) ↔
        (pySlice cmd2 4 16 = pySlice header 4 16 ∧ response.length = size)) ∧
      (pySlice cmd2 4 16 ≠ pySlice header 4 16 →
        (laf_read env fd offset size).2 = .error .badReadEcho) ∧
      (pySlice cmd2 4 16 = pySlice header 4 16 → response.length ≠ size →
        (laf_read env fd offset size).2 =
          .error (.badReadLength size response.length)) ∧
      (laf_read env fd offset size).1 =
        (read_go env offset size 3 0 fd (mkReadCmd fd offset size)).1) := by
  constructor
  · intro response fd2 h
    rcases hr : (read_go env offset size 3 0 fd (mkReadCmd fd offset size)).2 with e | r
    · rw [laf_read_snd_err env fd offset size e hr] at h
      exact absurd h (by simp)
    · rcases r with ⟨header, resp3, fd3, cmd3⟩
      rw [laf_read_snd_ok env fd offset size header resp3 fd3 cmd3 hr] at h
      by_cases h1 : pySlice cmd3 4 16 ≠ pySlice header 4 16
      · rw [if_pos h1] at h; exact absurd h (by simp)
      · rw [if_neg h1] at h
        by_cases h2 : resp3.length ≠ size
        · rw [if_pos h2] at h; exact absurd h (by simp)
        · rw [if_neg h2] at h
          simp only [Except.ok.injEq, Prod.mk.injEq] at h
          obtain ⟨h3, -⟩ := h
          subst h3
          omega
  · intro header response fd2 cmd2 hok
    have hs := laf_read_snd_ok env fd offset size header response fd2 cmd2 hok
    refine ⟨?_, ?_, ?_, laf_read_fst env fd offset size⟩
    · rw [hs]
      constructor
      · intro h
        by_cases h1 : pySlice cmd2 4 16 ≠ pySlice header 4 16
        · rw [if_pos h1] at h; exact absurd h (by simp)
        · by_cases h2 : response.length ≠ size
          · rw [if_neg h1, if_pos h2] at h; exact absurd h (by simp)
          · exact ⟨by tauto, by omega⟩
      · intro h
        rw [if_neg (by simp [h.1]), if_neg (by simp [h.2])]
    · intro h1
      rw [hs, if_pos h1]
    · intro h1 h2
      rw [hs, if_neg (by simp [h1]), if_pos h2]

/-- Witness for laf_read_validates: an environment answering with a
well-formed echo and a 2-byte payload makes laf_read return exactly
those 2 bytes. -/
theorem laf_read_validates_witness :
    (laf_read ⟨fun _ => Sum.inr ([0, 0, 0, 0, 1, 0, 0, 0, 0, 0, 0, 0, 2, 0, 0, 0], [7, 7]),
        fun _ _ => true, fun _ => none, fun _ => Sum.inl .other⟩ 1 0 2).2 =
      .ok ([7, 7], 1) :=
  ((laf_read_validates ⟨fun _ => Sum.inr ([0, 0, 0, 0, 1, 0, 0, 0, 0, 0, 0, 0, 2, 0, 0, 0],
      [7, 7]), fun _ _ => true, fun _ => none, fun _ => Sum.inl .other⟩ 1 0 2).2
    [0, 0, 0, 0, 1, 0, 0, 0, 0, 0, 0, 0, 2, 0, 0, 0] [7, 7] 1 (mkReadCmd 1 0 2)
    (by decide)).1.mpr (by decide)

/-- Python hex digit character code: 0..9 map to ASCII digits, 10..15 to
lowercase a..f. -/
def hexChar (d : Nat) : Nat := if d < 10 then 48 + d else 87 + d

/-- Little-endian base-16 digits of a number, with explicit fuel (the
fuel only needs to exceed the number of digits). -/
def leDigits : Nat → Nat → List Nat
  | 0, _ => []
  | f + 1, n => if n < 16 then [n] else n % 16 :: leDigits f (n / 16)

/-- Python hex(n) as a list of character codes: the prefix 0x followed
by the big-endian lowercase hex digits with no leading zeros. -/
def pyHex (n : Nat) : List Nat :=
  48 :: 120 :: ((leDigits (n + 1) n).reverse.map hexChar)

/-- Python lexicographic string comparison a < b on character-code
lists. -/
def strLt : List Nat → List Nat → Bool
  | _, [] => false
  | [], _ :: _ => true
  | a :: as, b :: bs => if a < b then true else if a = b then strLt as bs else false

/-- Python string comparison a >= b. -/
def pyStrGe (a b : List Nat) : Bool := ! strLt a b

/-- Big-endian base-16 digits of fixed width (used only in proofs, to
relate the string order on hex renderings to the numeric order). -/
def beDigits : Nat → Nat → List Nat
  | 0, _ => []
  | k + 1, n => beDigits k (n / 16) ++ [n % 16]

/-- Value of a little-endian base-16 digit list (used only in proofs). -/
def valLE : List Nat → Nat
  | [] => 0
  | d :: ds => d + 16 * valLE ds

theorem beDigits_length (k n : Nat) : (beDigits k n).length = k := by
  induction k generalizing n with
  | zero => rfl
  | succ m ih => simp [beDigits, ih]

theorem valLE_leDigits : ∀ f n, n < 16 ^ f → valLE (leDigits f n) = n := by
  intro f
  induction f with
  | zero => intro n h; interval_cases n; rfl
  | succ m ih =>
    intro n h
    by_cases h16 : n < 16
    · simp [leDigits, h16, valLE]
    · have hd : n / 16 < 16 ^ m := by
        rw [Nat.div_lt_iff_lt_mul (by norm_num)]
        calc n < 16 ^ (m + 1) := h
        _ = 16 ^ m * 16 := by ring
      simp only [leDigits, if_neg h16, valLE, ih (n / 16) hd]
      omega

theorem leDigits_eq_beDigits :
    ∀ k f n, 16 ^ k ≤ n → n < 16 ^ (k + 1) → k < f →
      (leDigits f n).reverse = beDigits (k + 1) n := by
  intro k
  induction k with
  | zero =>
    intro f n h1 h2 hf
    match f, hf with
    | g + 1, _ =>
      have h16 : n < 16 := by simpa using h2
      simp [leDigits, h16, beDigits, Nat.mod_eq_of_lt h16,
        Nat.div_eq_of_lt h16]
  | succ m ih =>
    intro f n h1 h2 hf
    match f, hf with
    | g + 1, hf =>
      have hge : ¬ n < 16 := by
        have : (16 : Nat) ≤ 16 ^ (m + 1) := by
          calc (16 : Nat) = 16 ^ 1 := by norm_num
          _ ≤ 16 ^ (m + 1) := Nat.pow_le_pow_right (by norm_num) (by omega)
        omega
      have hd1 : 16 ^ m ≤ n / 16 := by
        rw [Nat.le_div_iff_mul_le (by norm_num)]
        calc 16 ^ m * 16 = 16 ^ (m + 1) := by ring
        _ ≤ n := h1
      have hd2 : n / 16 < 16 ^ (m + 1) := by
        rw [Nat.div_lt_iff_lt_mul (by norm_num)]
        calc n < 16 ^ (m + 1 + 1) := h2
        _ = 16 ^ (m + 1) * 16 := by ring
      have hg : m < g := by omega
      simp only [leDigits, if_neg hge, List.reverse_cons, ih g (n / 16) hd1 hd2 hg]
      rfl

theorem hexChar_lt_iff (a b : Nat) : hexChar a < hexChar b ↔ a < b := by
  unfold hexChar
  split <;> split <;> omega

theorem hexChar_injective : Function.Injective hexChar := by
  intro a b h
  unfold hexChar at h
  by_cases ha : a < 10 <;> by_cases hb : b < 10 <;> simp [ha, hb] at h <;> omega

theorem strLt_cons_same (c : Nat) (xs ys : List Nat) :
    strLt (c :: xs) (c :: ys) = strLt xs ys := by
  simp [strLt]

theorem strLt_append_last :
    ∀ xs ys : List Nat, ∀ u v : Nat, xs.length = ys.length →
      (strLt (xs ++ [u]) (ys ++ [v]) = true ↔
        (strLt xs ys = true ∨ (xs = ys ∧ u < v))) := by
  intro xs
  induction xs with
  | nil =>
    intro ys u v hlen
    match ys, hlen with
    | [], _ => simp [strLt]
  | cons a as ih =>
    intro ys u v hlen
    match ys, hlen with
    | b :: bs, hlen =>
      have hlen2 : as.length = bs.length := by simpa using hlen
      by_cases hab : a < b
      · simp [strLt, hab]
      · by_cases heq : a = b
        · subst heq
          rw [List.cons_append, List.cons_append, strLt_cons_same,
            strLt_cons_same, ih bs u v hlen2]
          simp
        · simp [strLt, hab, heq]

theorem beDigits_injective :
    ∀ k a b, a < 16 ^ k → b < 16 ^ k → beDigits k a = beDigits k b → a = b := by
  intro k
  induction k with
  | zero => intro a b h1 h2 _; omega
  | succ m ih =>
    intro a b h1 h2 h
    simp only [beDigits] at h
    have hlen : (beDigits m (a / 16)).length = (beDigits m (b / 16)).length := by
      rw [beDigits_length, beDigits_length]
    obtain ⟨h3, h4⟩ := List.append_inj h hlen
    have h5 : a / 16 = b / 16 := by
      apply ih
      · rw [Nat.div_lt_iff_lt_mul (by norm_num)]
        calc a < 16 ^ (m + 1) := h1
        _ = 16 ^ m * 16 := by ring
      · rw [Nat.div_lt_iff_lt_mul (by norm_num)]
        calc b < 16 ^ (m + 1) := h2
        _ = 16 ^ m * 16 := by ring
      · exact h3
    have h6 : a % 16 = b % 16 := by simpa using h4
    omega

theorem strLt_beDigits :
    ∀ k a b, a < 16 ^ k → b < 16 ^ k →
      (strLt ((beDigits k a).map hexChar) ((beDigits k b).map hexChar) = true ↔ a < b) := by
  intro k
  induction k with
  | zero =>
    intro a b h1 h2
    have : a = 0 := by omega
    have : b = 0 := by omega
    subst_vars
    simp [beDigits, strLt]
  | succ m ih =>
    intro a b h1 h2
    have hda : a / 16 < 16 ^ m := by
      rw [Nat.div_lt_iff_lt_mul (by norm_num)]
      calc a < 16 ^ (m + 1) := h1
      _ = 16 ^ m * 16 := by ring
    have hdb : b / 16 < 16 ^ m := by
      rw [Nat.div_lt_iff_lt_mul (by norm_num)]
      calc b < 16 ^ (m + 1) := h2
      _ = 16 ^ m * 16 := by ring
    simp only [beDigits, List.map_append, List.map_cons, List.map_nil]
    rw [strLt_append_last _ _ _ _ (by rw [List.length_map, List.length_map,
      beDigits_length, beDigits_length])]
    rw [ih (a / 16) (b / 16) hda hdb]
    have hmapinj : ((beDigits m (a / 16)).map hexChar = (beDigits m (b / 16)).map hexChar)
        ↔ a / 16 = b / 16 := by
      constructor
      · intro h
        have := List.map_injective_iff.mpr hexChar_injective h
        exact beDigits_injective m _ _ hda hdb this
      · intro h; rw [h]
    rw [hmapinj, hexChar_lt_iff]
    have e1 : a = 16 * (a / 16) + a % 16 := by omega
    have e2 : b = 16 * (b / 16) + b % 16 := by omega
    constructor
    · rintro (h | ⟨h3, h4⟩) <;> omega
    · intro h
      rcases Nat.lt_or_ge (a / 16) (b / 16) with h5 | h5
      · exact Or.inl h5
      · right
        constructor <;> omega

theorem pyHex_big (v : Nat) (h1 : 16 ^ 6 ≤ v) (h2 : v < 16 ^ 7) :
    pyHex v = 48 :: 120 :: (beDigits 7 v).map hexChar := by
  unfold pyHex
  rw [leDigits_eq_beDigits 6 (v + 1) v h1 h2 (by omega)]

theorem pyStrGe_hex_iff (v : Nat) (h1 : 16 ^ 6 ≤ v) (h2 : v < 16 ^ 7) :
    pyStrGe (pyHex v) (pyHex 0x1000008) = true ↔ 0x1000008 ≤ v := by
  rw [pyHex_big v h1 h2, pyHex_big 0x1000008 (by norm_num) (by norm_num)]
  unfold pyStrGe
  have hs : strLt (48 :: 120 :: (beDigits 7 v).map hexChar)
      (48 :: 120 :: (beDigits 7 0x1000008).map hexChar) =
      strLt ((beDigits 7 v).map hexChar) ((beDigits 7 0x1000008).map hexChar) := by
    simp [strLt]
  rw [hs]
  cases hlt : strLt ((beDigits 7 v).map hexChar) ((beDigits 7 0x1000008).map hexChar) with
  | false =>
    have hnot : ¬ v < 0x1000008 := by
      intro hv
      rw [(strLt_beDigits 7 v 0x1000008 h2 (by norm_num)).mpr hv] at hlt
      exact absurd hlt (by simp)
    simp only [Bool.not_false]
    constructor
    · intro _; omega
    · intro _; trivial
  | true =>
    have hv := (strLt_beDigits 7 v 0x1000008 h2 (by norm_num)).mp hlt
    simp only [Bool.not_true]
    constructor
    · intro h; exact absurd h (by simp)
    · intro h; omega

theorem pyHex_injective : Function.Injective pyHex := by
  intro a b h
  unfold pyHex at h
  simp only [List.cons.injEq, true_and] at h
  have h2 : (leDigits (a + 1) a).reverse = (leDigits (b + 1) b).reverse :=
    List.map_injective_iff.mpr hexChar_injective h
  have h3 : leDigits (a + 1) a = leDigits (b + 1) b :=
    List.reverse_injective h2
  have ha : a < 16 ^ (a + 1) := by
    calc a < 16 ^ a := Nat.lt_pow_self (by norm_num) a
    _ ≤ 16 ^ (a + 1) := Nat.pow_le_pow_right (by norm_num) (by omega)
  have hb : b < 16 ^ (b + 1) := by
    calc b < 16 ^ b := Nat.lt_pow_self (by norm_num) b
    _ ≤ 16 ^ (b + 1) := Nat.pow_le_pow_right (by norm_num) (by omega)
  calc a = valLE (leDigits (a + 1) a) := (valLE_leDigits (a + 1) a ha).symm
  _ = valLE (leDigits (b + 1) b) := by rw [h3]
  _ = b := valLE_leDigits (b + 1) b hb

/-- Device commands issued over the channel by the partition
operations. -/
inductive DevCmd
  | readC (off size : Nat) (tmo : Option Nat)
  | wrteC (fd off mode : Nat) (data : List Nat)
  | erseC (fd start count : Nat)
  | miscWrteC (size : Nat) (data : List Nat)
  | ioctC (fd param : Nat)
  | copyC (fd src size dst : Nat)
deriving DecidableEq

/-- Reading size bytes at a block offset from a device modelled as a
byte-addressed function (what a successful laf_read returns). -/
def readAt (dev : Nat → Nat) (bs blockOff size : Nat) : List Nat :=
  (List.range size).map (fun i => dev (blockOff * bs + i))

/-- The 8-byte GPT signature b'EFI PART'. -/
def efiSig : List Nat := [69, 70, 73, 32, 80, 65, 82, 84]

/-- Modelled from the spec: the external GPT parser read_gpt_header
returns the signature found at the conventional header offset, i.e. the
8 bytes at the start of block 1 (byte offset block_size). -/
def read_gpt_header (table : List Nat) (bs : Nat) : List Nat :=
  pySlice table bs (bs + 8)

/-- The chunked table-read loop shared by check_block_size,
get_partitions and the main loop of dump_partition: while
read_offset < end_offset, read min(end_offset - read_offset,
BLOCK_SIZE * MAX_BLOCK_SIZE) bytes at block read_offset // BLOCK_SIZE.
Returns the reads issued (block offset, size, timeout) and the
concatenated data.  The conjunct 0 < bs * maxc makes the recursion
well-founded; with a zero chunk bound the source would not terminate. -/
def cbs_loop (dev : Nat → Nat) (bs maxc endo : Nat) (tmo : Option Nat) (ro : Nat) :
    List (Nat × Nat × Option Nat) × List Nat :=
  if h : ro < endo ∧ 0 < bs * maxc then
    let chunk := min (endo - ro) (bs * maxc)
    let rest := cbs_loop dev bs maxc endo tmo (ro + chunk)
    ((ro / bs, chunk, tmo) :: rest.1, readAt dev bs (ro / bs) chunk ++ rest.2)
  else ([], [])
termination_by endo - ro
decreasing_by
  have h1 : 1 ≤ min (endo - ro) (bs * maxc) := Nat.le_min.mpr ⟨by omega, h.2⟩
  omega

/-- partitions.check_block_size: read GPT_LBA_LEN * BLOCK_SIZE probe
bytes from block 0 — as one 17408-byte read when
hex(protocol_version) >= the string 0x1000008, else in chunks — all
with timeout 3000, then test for the GPT signature at the conventional
header offset. -/
def check_block_size (dev : Nat → Nat) (proto bs lba maxc : Nat) :
    List (Nat × Nat × Option Nat) × Bool :=
  let endo := lba * bs
  let rt :=
    if pyStrGe (pyHex proto) (pyHex 0x1000008) then
      ([(0 / bs, 17408, some 3000)], readAt dev bs (0 / bs) 17408)
    else cbs_loop dev bs maxc endo (some 3000) 0
  (rt.1, decide (read_gpt_header rt.2 bs = efiSig))

/-- partitions.get_partitions, reduced to the reads it issues and the
table bytes it hands to the external GPT parser (same branching as
check_block_size but with no timeout). -/
def get_partitions_model (dev : Nat → Nat) (proto bs lba maxc : Nat) :
    List (Nat × Nat × Option Nat) × List Nat :=
  let endo := lba * bs
  if pyStrGe (pyHex proto) (pyHex 0x1000008) then
    ([(0 / bs, 17408, none)], readAt dev bs (0 / bs) 17408)
  else cbs_loop dev bs maxc endo none 0

/-- The device-type auto-detection branch of partitions.main (no
--devtype given): try UFS geometry (block size 4096, GPT LBA length 6)
first, then EMMC (512, 34); the first candidate whose GPT-signature
probe succeeds wins; if neither succeeds the run fails
(the source logs Cannot identify the block size and raises). -/
def detect_devtype (dev : Nat → Nat) (proto : Nat) :
    Except Err (String × Nat × Nat × Nat) :=
  let bs_ufs := 4096
  let lba_ufs := 6
  let maxc_ufs := (16 * 1024 - bs_ufs) / bs_ufs
  if (check_block_size dev proto bs_ufs lba_ufs maxc_ufs).2 then
    .ok ("UFS", bs_ufs, lba_ufs, maxc_ufs)
  else
    let bs_emmc := 512
    let lba_emmc := 34
    let maxc_emmc := (16 * 1024 - bs_emmc) / bs_emmc
    if (check_block_size dev proto bs_emmc lba_emmc maxc_emmc).2 then
      .ok ("EMMC", bs_emmc, lba_emmc, maxc_emmc)
    else .error .unidentifiable

/-- A synthetic device whose GPT signature sits at byte offset 512 (the
EMMC conventional header offset) and nowhere else. -/
def emmcBlob : Nat → Nat :=
  fun a => if 512 ≤ a ∧ a < 520 then efiSig.getD (a - 512) 0 else 0

/-- partitions.laf_write: issue WRTE with args [fd, offset, write_mode],
then assert the echoed bytes 4..8 match and the reported offset at
header bytes 8..12 equals (offset * BLOCK_SIZE) & 0xffffffff (here
written % 2^32). -/
def laf_write (bs : Nat) (header : List Nat) (fd offset write_mode : Nat)
    (data : List Nat) : DevCmd × Except Err Unit :=
  let write_cmd := make_request wrteTag [fd, offset, write_mode]
  let calc_offset := (offset * bs) % 4294967296
  let resp_offset := read_uint32 header 8
  (DevCmd.wrteC fd offset write_mode data,
   if pySlice write_cmd 4 8 ≠ pySlice header 4 8 then .error .badWriteEcho
   else if calc_offset ≠ resp_offset then
     .error (.badWriteOffset calc_offset resp_offset)
   else .ok ())

/-- The streaming write loop of write_partition: while
write_offset < end_offset, read min(end_offset - write_offset, 1 MiB)
bytes from the source, stop at end of file, WRTE at block
write_offset // BLOCK_SIZE, switch to streaming mode 0x00 after the
first chunk, and stop after a short read.  hdrs supplies the WRTE
response header for each write. -/
def write_loop (bs fd endo : Nat) (file : List Nat) (hdrs : Nat → List Nat)
    (wo pos write_mode k : Nat) : List DevCmd × Except Err Unit :=
  if h : wo < endo then
    let chunksize := min (endo - wo) 1048576
    let data := (file.drop pos).take chunksize
    if data = [] then ([], .ok ())
    else
      let w := laf_write bs (hdrs k) fd (wo / bs) write_mode data
      match w.2 with
      | .error e => ([w.1], .error e)
      | .ok _ =>
        if data.length ≠ chunksize then ([w.1], .ok ())
        else
          let rest :=
            write_loop bs fd endo file hdrs (wo + chunksize) (pos + data.length) 0 (k + 1)
          (w.1 :: rest.1, rest.2)
  else ([], .ok ())
termination_by endo - wo
decreasing_by
  have h1 : 1 ≤ min (endo - wo) 1048576 := Nat.le_min.mpr ⟨by omega, by omega⟩
  omega

/-- partitions.write_partition (direct restore): reject unaligned
part_offset, assert part_offset is not inside the GPT-reserved region,
require hex(protocol_version) == the string 0x1000001 (else raise the
unsupported-firmware error), reject a source longer than the partition,
then stream the file through WRTE starting in TOT mode 0x20. -/
def write_partition (proto bs lba fd : Nat) (hdrs : Nat → List Nat)
    (part_offset part_size : Nat) (file : List Nat) :
    List DevCmd × Except Err Unit :=
  let write_offset := bs * (part_offset / bs)
  let end_offset := part_offset + part_size
  if part_offset % bs ≠ 0 then ([], .error .unaligned)
  else if ¬ (lba * bs ≤ part_offset) then ([], .error .gptOverwrite)
  else if pyHex proto = pyHex 0x1000001 then
    if file.length > part_size then ([], .error (.oversize file.length part_size))
    else write_loop bs fd end_offset file hdrs write_offset 0 0x20 0
  else ([], .error (.unsupportedFw proto))

/-- The staging loop of write_misc_partition: per block-sized source
chunk, MISC WRTE the chunk, IOCT 0x1261 (write enable), COPY from the
misc start sector to the destination block, IOCT 0x1261 (write
disable); a short chunk adjusts chunksize to the data length. -/
def misc_loop (bs fd misc_start endo : Nat) (file : List Nat)
    (wo pos : Nat) : List DevCmd :=
  if h : wo < endo then
    let data := (file.drop pos).take bs
    if hd : data = [] then []
    else
      let chunksize := if data.length ≠ bs then data.length else bs
      let cmds : List DevCmd := [.miscWrteC chunksize data, .ioctC fd 0x1261,
        .copyC fd misc_start chunksize (wo / bs), .ioctC fd 0x1261]
      if hcs : data.length ≠ chunksize then cmds
      else cmds ++ misc_loop bs fd misc_start endo file (wo + chunksize) (pos + data.length)
  else []
termination_by endo - wo
decreasing_by
  have hlen : 0 < ((file.drop pos).take bs).length := List.length_pos.mpr hd
  split
  · omega
  · omega

/-- partitions.write_misc_partition (restore via misc): the same
unaligned / GPT-region / oversize preconditions as the direct path,
then find_misc (which rereads the partition table through the
get_partitions chunk loop and asks the external GPT parser, modelled by
parseMisc, for the misc start sector) and the staging loop. -/
def write_misc_partition (proto bs lba maxc fd : Nat) (dev : Nat → Nat)
    (parseMisc : List Nat → Nat) (part_offset part_size : Nat) (file : List Nat) :
    List DevCmd × Except Err Unit :=
  let write_offset := bs * (part_offset / bs)
  let end_offset := part_offset + part_size
  if part_offset % bs ≠ 0 then ([], .error .unaligned)
  else if ¬ (lba * bs ≤ part_offset) then ([], .error .gptOverwrite)
  else if file.length > part_size then ([], .error (.oversize file.length part_size))
  else
    let gp := get_partitions_model dev proto bs lba maxc
    let misc_start := parseMisc gp.2
    let tableReads := gp.1.map (fun r => DevCmd.readC r.1 r.2.1 r.2.2)
    (tableReads ++ misc_loop bs fd misc_start end_offset file write_offset 0, .ok ())

/-- partitions.wipe_partition plus laf_erase: translate the byte range
to sectors, assert sector_start >= 34 and 0 < sector_count < 1024^3,
then issue ERSE and assert the echoed bytes 4..16. -/
def wipe_partition (bs fd : Nat) (header : List Nat) (part_offset part_size : Nat) :
    List DevCmd × Except Err Unit :=
  let sector_start := part_offset / bs
  let sector_count := part_size / bs
  if ¬ (34 ≤ sector_start) then ([], .error .gptOverwrite)
  else if ¬ (0 < sector_count ∧ sector_count < 1024 ^ 3) then
    ([], .error (.invalidSectorCount sector_count))
  else
    let erase_cmd := make_request erseTag [fd, sector_start, sector_count]
    ([DevCmd.erseC fd sector_start sector_count],
     if pySlice erase_cmd 4 16 ≠ pySlice header 4 16 then .error .badEraseEcho
     else .ok ())

/-- partitions.open_local_writable for a file sink: an existing file of
size s is opened for append only after asserting s is a multiple of
BLOCK_SIZE; a new file (or stdout) starts at size 0. -/
def open_local_writable (bs : Nat) (existing : Option Nat) : Except Err Nat :=
  match existing with
  | none => .ok 0
  | some s => if s % bs ≠ 0 then .error (.unalignedSink s) else .ok s

/-- partitions.dump_partition, reduced to the reads it issues: align
part_offset down to a block boundary, open the local sink (appending
resumes at its current size s), add s to the read offset, read one
partial block first if that offset is unaligned (dropping the leading
bytes), then run the chunked read loop. -/
def dump_partition (dev : Nat → Nat) (bs maxc : Nat) (existing : Option Nat)
    (part_offset part_size : Nat) :
    List (Nat × Nat × Option Nat) × Except Err Unit :=
  let read_offset0 := bs * (part_offset / bs)
  let end_offset := part_offset + part_size
  match open_local_writable bs existing with
  | .error e => ([], .error e)
  | .ok s =>
    let read_offset := read_offset0 + s
    let unaligned_bytes := read_offset % bs
    if unaligned_bytes ≠ 0 then
      let chunksize := min (end_offset - read_offset) bs
      ((read_offset / bs, chunksize, none) ::
        (cbs_loop dev bs maxc end_offset none (read_offset + bs)).1, .ok ())
    else ((cbs_loop dev bs maxc end_offset none read_offset).1, .ok ())

theorem cbs_loop_data (dev : Nat → Nat) (bs maxc endo : Nat) (tmo : Option Nat)
    (hendo : bs ∣ endo) (hpos : 0 < bs * maxc) :
    ∀ ro, bs ∣ ro →
      (cbs_loop dev bs maxc endo tmo ro).2 =
        (List.range (endo - ro)).map (fun i => dev (ro + i)) := by
  intro ro
  induction ro using cbs_loop.induct dev bs maxc endo tmo with
  | case1 ro h chunk ih =>
    intro hro
    unfold_let chunk at ih
    rw [cbs_loop, dif_pos h]
    simp only []
    have hch : bs ∣ min (endo - ro) (bs * maxc) := by
      rcases le_total (endo - ro) (bs * maxc) with hle | hle
      · rw [min_eq_left hle]; exact Nat.dvd_sub' hendo hro
      · rw [min_eq_right hle]; exact dvd_mul_right bs maxc
    have hle1 : min (endo - ro) (bs * maxc) ≤ endo - ro := Nat.min_le_left _ _
    conv_rhs => rw [show endo - ro = min (endo - ro) (bs * maxc) +
      (endo - ro - min (endo - ro) (bs * maxc)) from by omega]
    rw [List.range_add, List.map_append]
    congr 1
    · simp [readAt, Nat.div_mul_cancel hro]
    · rw [ih (Nat.dvd_add hro hch), List.map_map]
      rw [show endo - (ro + min (endo - ro) (bs * maxc)) =
        endo - ro - min (endo - ro) (bs * maxc) from by omega]
      apply List.map_congr_left
      intro x _
      simp only [Function.comp]
      congr 1
      omega
  | case2 ro h =>
    intro _
    have hn : ¬ ro < endo := fun hlt => h ⟨hlt, hpos⟩
    rw [cbs_loop, dif_neg h]
    simp only []
    rw [show endo - ro = 0 by omega]
    simp

theorem cbs_loop_reads_bound (dev : Nat → Nat) (bs maxc endo : Nat) (tmo : Option Nat) :
    ∀ ro r, r ∈ (cbs_loop dev bs maxc endo tmo ro).1 →
      r.2.1 ≤ bs * maxc ∧ r.2.2 = tmo := by
  intro ro
  induction ro using cbs_loop.induct dev bs maxc endo tmo with
  | case1 ro h chunk ih =>
    intro r hr
    unfold_let chunk at ih
    rw [cbs_loop, dif_pos h] at hr
    simp only [List.mem_cons] at hr
    rcases hr with hr | hr
    · subst hr
      exact ⟨Nat.min_le_right _ _, rfl⟩
    · exact ih r hr
  | case2 ro h =>
    intro r hr
    rw [cbs_loop, dif_neg h] at hr
    simp at hr

theorem cbs_loop_reads_sum (dev : Nat → Nat) (bs maxc endo : Nat) (tmo : Option Nat)
    (hpos : 0 < bs * maxc) :
    ∀ ro, (((cbs_loop dev bs maxc endo tmo ro).1.map (fun r => r.2.1)).sum = endo - ro) := by
  intro ro
  induction ro using cbs_loop.induct dev bs maxc endo tmo with
  | case1 ro h chunk ih =>
    unfold_let chunk at ih
    rw [cbs_loop, dif_pos h]
    simp only [List.map_cons, List.sum_cons, ih]
    have hle1 : min (endo - ro) (bs * maxc) ≤ endo - ro := Nat.min_le_left _ _
    omega
  | case2 ro h =>
    have hn : ¬ ro < endo := fun hlt => h ⟨hlt, hpos⟩
    rw [cbs_loop, dif_neg h]
    simp only [List.map_nil, List.sum_nil]
    omega

theorem pySlice_range_map (f : Nat → Nat) (n a m : Nat) (h : a + m ≤ n) :
    pySlice ((List.range n).map f) a (a + m) =
      (List.range m).map (fun i => f (a + i)) := by
  unfold pySlice
  rw [show a + m - a = m from by omega]
  rw [show n = a + (n - a) from by omega, List.range_add, List.map_append]
  rw [List.drop_left' (by simp)]
  rw [List.map_map, ← List.map_take, List.take_range]
  rw [show m ⊓ (n - a) = m from by omega]
  apply List.map_congr_left
  intro x _
  rfl

theorem check_block_size_snd_chunked (dev : Nat → Nat) (proto bs lba maxc : Nat)
    (hpos : 0 < bs * maxc) (h8 : bs + 8 ≤ lba * bs)
    (hlow : pyStrGe (pyHex proto) (pyHex 0x1000008) = false) :
    (check_block_size dev proto bs lba maxc).2 =
      decide ((List.range 8).map (fun i => dev (bs + i)) = efiSig) := by
  unfold check_block_size
  simp only [hlow, Bool.false_eq_true, if_false]
  have hdata : (cbs_loop dev bs maxc (lba * bs) (some 3000) 0).2 =
      (List.range (lba * bs)).map (fun i => dev i) := by
    have := cbs_loop_data dev bs maxc (lba * bs) (some 3000) ⟨lba, by ring⟩ hpos 0
      (dvd_zero bs)
    simpa using this
  rw [hdata]
  unfold read_gpt_header
  rw [pySlice_range_map (fun i => dev i) (lba * bs) bs 8 h8]

theorem check_block_size_snd_single (dev : Nat → Nat) (proto bs lba maxc : Nat)
    (hhigh : pyStrGe (pyHex proto) (pyHex 0x1000008) = true)
    (h8 : bs + 8 ≤ 17408) :
    (check_block_size dev proto bs lba maxc).2 =
      decide ((List.range 8).map (fun i => dev (bs + i)) = efiSig) := by
  unfold check_block_size
  simp only [hhigh, if_true]
  unfold read_gpt_header readAt
  simp only [Nat.zero_div, Nat.zero_mul, Nat.zero_add]
  rw [pySlice_range_map (fun i => dev i) 17408 bs 8 h8]

theorem pyStrGe_legacy_low : pyStrGe (pyHex 0x1000001) (pyHex 0x1000008) = false := by
  decide

theorem sig_emmcBlob_ufs : ((List.range 8).map (fun i => emmcBlob (4096 + i)) = efiSig)
    = False := by decide

theorem sig_emmcBlob_emmc : (List.range 8).map (fun i => emmcBlob (512 + i)) = efiSig := by
  decide

theorem sig_zero_dev (bs : Nat) : ((List.range 8).map (fun i => (fun _ => 0) (bs + i)) = efiSig)
    = False := by
  simp [efiSig]

theorem detect_devtype_eq (dev : Nat → Nat) (proto : Nat) :
    detect_devtype dev proto =
      (if (check_block_size dev proto 4096 6 3).2 then .ok ("UFS", 4096, 6, 3)
       else if (check_block_size dev proto 512 34 31).2 then .ok ("EMMC", 512, 34, 31)
       else .error .unidentifiable) := by
  unfold detect_devtype
  norm_num

theorem check_ufs_emmcBlob_false :
    (check_block_size emmcBlob 0x1000001 4096 6 3).2 = false := by
  rw [check_block_size_snd_chunked emmcBlob 0x1000001 4096 6 3 (by norm_num)
    (by norm_num) pyStrGe_legacy_low]
  simp [sig_emmcBlob_ufs]

theorem check_emmc_emmcBlob_true :
    (check_block_size emmcBlob 0x1000001 512 34 31).2 = true := by
  rw [check_block_size_snd_chunked emmcBlob 0x1000001 512 34 31 (by norm_num)
    (by norm_num) pyStrGe_legacy_low]
  simp only [decide_eq_true_eq]
  exact sig_emmcBlob_emmc

theorem check_ufs_zero_false :
    (check_block_size (fun _ => 0) 0x1000001 4096 6 3).2 = false := by
  rw [check_block_size_snd_chunked (fun _ => 0) 0x1000001 4096 6 3 (by norm_num)
    (by norm_num) pyStrGe_legacy_low]
  simp [efiSig]

theorem check_emmc_zero_false :
    (check_block_size (fun _ => 0) 0x1000001 512 34 31).2 = false := by
  rw [check_block_size_snd_chunked (fun _ => 0) 0x1000001 512 34 31 (by norm_num)
    (by norm_num) pyStrGe_legacy_low]
  simp [efiSig]

/-- C5: the auto-detection tries UFS (block size 4096, GPT LBA length 6)
first and EMMC (512, 34) second, selecting the first candidate whose
GPT-signature probe succeeds; a device blob carrying the signature at
the EMMC header offset but not the UFS one selects EMMC; a blob with
neither signature makes detection fail with the unidentifiable error,
and the probe issues no mutating command. -/
theorem detect_devtype_policy :
    (∀ dev proto, (check_block_size dev proto 4096 6 3).2 = true →
      detect_devtype dev proto = .ok ("UFS", 4096, 6, 3)) ∧
    (∀ dev proto, (check_block_size dev proto 4096 6 3).2 = false →
      (check_block_size dev proto 512 34 31).2 = true →
      detect_devtype dev proto = .ok ("EMMC", 512, 34, 31)) ∧
    (∀ dev proto, (check_block_size dev proto 4096 6 3).2 = false →
      (check_block_size dev proto 512 34 31).2 = false →
      detect_devtype dev proto = .error .unidentifiable) ∧
    detect_devtype emmcBlob 0x1000001 = .ok ("EMMC", 512, 34, 31) ∧
    detect_devtype (fun _ => 0) 0x1000001 = .error .unidentifiable := by
  refine ⟨?_, ?_, ?_, ?_, ?_⟩
  · intro dev proto h
    simp [detect_devtype_eq, h]
  · intro dev proto h1 h2
    simp [detect_devtype_eq, h1, h2]
  · intro dev proto h1 h2
    simp [detect_devtype_eq, h1, h2]
  · simp [detect_devtype_eq, check_ufs_emmcBlob_false, check_emmc_emmcBlob_true]
  · simp [detect_devtype_eq, check_ufs_zero_false, check_emmc_zero_false]

/-- Witness for detect_devtype_policy: the EMMC-first-match conjunct
instantiated at the synthetic EMMC blob. -/
theorem detect_devtype_policy_witness :
    detect_devtype emmcBlob 0x1000001 = .ok ("EMMC", 512, 34, 31) :=
  (detect_devtype_policy).2.1 emmcBlob 0x1000001
    check_ufs_emmcBlob_false check_emmc_emmcBlob_true

/-- Counterexample for C9: protocol version 0x20 is far below the
threshold 0x1000008, yet check_block_size takes the single-read branch
(one 17408-byte read), because the source compares hex(version) as a
string and the string 0x20 sorts above the string 0x1000008; 17408 also
exceeds the chunk bound max_block_count * block_size = 12288 that the
claim promises for below-threshold versions. -/
theorem check_block_size_low_version_counterexample :
    32 < 0x1000008 ∧
    (check_block_size (fun _ => 0) 32 4096 6 3).1 = [(0, 17408, some 3000)] ∧
    4096 * 3 < 17408 := by
  refine ⟨by norm_num, ?_, by norm_num⟩
  have h : pyStrGe (pyHex 32) (pyHex 0x1000008) = true := by decide
  unfold check_block_size
  simp [h]

/-- C9 (amended): for every protocol version whose hexadecimal rendering
has seven digits (0x1000000 <= v < 0x10000000) the string comparison in
check_block_size agrees with the numeric one, so a version at or above
0x1000008 issues the single 17408-byte read with the extended 3000 ms
timeout, and a version below the threshold runs the chunk loop whose
reads each carry the 3000 ms timeout, are bounded by
max_block_count * block_size, and together cover exactly
gpt_lba_len * block_size probe bytes. -/
theorem check_block_size_branching (dev : Nat → Nat) (bs lba maxc v : Nat)
    (hlo : 16 ^ 6 ≤ v) (hhi : v < 16 ^ 7) (hpos : 0 < bs * maxc) :
    (0x1000008 ≤ v →
      (check_block_size dev v bs lba maxc).1 = [(0, 17408, some 3000)]) ∧
    (v < 0x1000008 →
      (check_block_size dev v bs lba maxc).1 =
        (cbs_loop dev bs maxc (lba * bs) (some 3000) 0).1 ∧
      (∀ r ∈ (check_block_size dev v bs lba maxc).1,
        r.2.1 ≤ bs * maxc ∧ r.2.2 = some 3000) ∧
      ((check_block_size dev v bs lba maxc).1.map (fun r => r.2.1)).sum = lba * bs) := by
  constructor
  · intro hge
    have h : pyStrGe (pyHex v) (pyHex 0x1000008) = true :=
      (pyStrGe_hex_iff v hlo hhi).mpr hge
    unfold check_block_size
    simp [h]
  · intro hlt
    have h : pyStrGe (pyHex v) (pyHex 0x1000008) = false := by
      cases hb : pyStrGe (pyHex v) (pyHex 0x1000008) with
      | false => rfl
      | true =>
        have := (pyStrGe_hex_iff v hlo hhi).mp hb
        omega
    have hfst : (check_block_size dev v bs lba maxc).1 =
        (cbs_loop dev bs maxc (lba * bs) (some 3000) 0).1 := by
      unfold check_block_size
      simp [h]
    refine ⟨hfst, ?_, ?_⟩
    · intro r hr
      rw [hfst] at hr
      exact cbs_loop_reads_bound dev bs maxc (lba * bs) (some 3000) 0 r hr
    · rw [hfst]
      have := cbs_loop_reads_sum dev bs maxc (lba * bs) (some 3000) hpos 0
      simpa using this

/-- Witness for check_block_size_branching: exactly the threshold version
on UFS geometry issues the single extended read. -/
theorem check_block_size_branching_witness :
    (check_block_size (fun _ => 0) 0x1000008 4096 6 3).1 = [(0, 17408, some 3000)] :=
  (check_block_size_branching (fun _ => 0) 4096 6 3 0x1000008
    (by norm_num) (by norm_num) (by norm_num)).1 (by norm_num)

/-- Counterexample for C7: a WRTE response whose reported offset at
bytes 8..12 equals (block_offset * block_size) mod 2^32 but whose
echoed identity bytes 4..8 do not match the request still fails the
echo assertion, so write does not return; the claim that a matching
reported offset makes both checks pass is false. -/
theorem laf_write_offset_match_counterexample :
    read_uint32 [0, 0, 0, 0, 255, 255, 255, 255, 0, 0, 0, 0] 8 =
      (0 * 4096) % 4294967296 ∧
    (laf_write 4096 [0, 0, 0, 0, 255, 255, 255, 255, 0, 0, 0, 0] 1 0 32 []).2 =
      .error .badWriteEcho := by
  constructor
  · decide
  · decide

/-- C7 (amended): after the WRTE response arrives, laf_write first
checks the echoed command identity (request bytes 4..8 against header
bytes 4..8) and then that the reported offset at header bytes 8..12
equals (block_offset * block_size) mod 2^32; an identity mismatch is a
fatal error without offset payload, an identity match with an offset
mismatch is a fatal error carrying the expected and actual offsets, and
write returns exactly when the identity matches and the reported offset
equals the 32-bit-truncated product. -/
theorem laf_write_validation (bs : Nat) (header : List Nat) (fd offset write_mode : Nat)
    (data : List Nat) :
    ((laf_write bs header fd offset write_mode data).2 = .ok () ↔
      (pySlice (make_request wrteTag [fd, offset, write_mode]) 4 8 = pySlice header 4 8 ∧
        (offset * bs) % 4294967296 = read_uint32 header 8)) ∧
    (pySlice (make_request wrteTag [fd, offset, write_mode]) 4 8 ≠ pySlice header 4 8 →
      (laf_write bs header fd offset write_mode data).2 = .error .badWriteEcho) ∧
    (pySlice (make_request wrteTag [fd, offset, write_mode]) 4 8 = pySlice header 4 8 →
      (offset * bs) % 4294967296 ≠ read_uint32 header 8 →
      (laf_write bs header fd offset write_mode data).2 =
        .error (.badWriteOffset ((offset * bs) % 4294967296) (read_uint32 header 8))) ∧
    (laf_write bs header fd offset write_mode data).1 =
      DevCmd.wrteC fd offset write_mode data := by
  have hsnd : (laf_write bs header fd offset write_mode data).2 =
      (if pySlice (make_request wrteTag [fd, offset, write_mode]) 4 8 ≠ pySlice header 4 8
       then .error .badWriteEcho
       else if (offset * bs) % 4294967296 ≠ read_uint32 header 8
       then .error (.badWriteOffset ((offset * bs) % 4294967296) (read_uint32 header 8))
       else .ok ()) := rfl
  refine ⟨?_, ?_, ?_, rfl⟩
  · rw [hsnd]
    constructor
    · intro h
      by_cases h1 : pySlice (make_request wrteTag [fd, offset, write_mode]) 4 8 =
          pySlice header 4 8
      · by_cases h2 : (offset * bs) % 4294967296 = read_uint32 header 8
        · exact ⟨h1, h2⟩
        · rw [if_neg (by simpa using h1), if_pos h2] at h
          exact absurd h (by simp)
      · rw [if_pos h1] at h
        exact absurd h (by simp)
    · rintro ⟨h1, h2⟩
      rw [if_neg (by simpa using h1), if_neg (by simpa using h2)]
  · intro h1
    rw [hsnd, if_pos h1]
  · intro h1 h2
    rw [hsnd, if_neg (by simpa using h1), if_pos h2]

/-- Witness for laf_write_validation: a response echoing the request and
reporting the correct truncated offset makes write return. -/
theorem laf_write_validation_witness :
    (laf_write 4096 [0, 0, 0, 0, 1, 0, 0, 0, 0, 16, 0, 0] 1 1 32 [9]).2 = .ok () :=
  (laf_write_validation 4096 [0, 0, 0, 0, 1, 0, 0, 0, 0, 16, 0, 0] 1 1 32 [9]).1.mpr
    (by decide)

theorem wipe_partition_eq (bs fd : Nat) (header : List Nat) (po ps : Nat) :
    wipe_partition bs fd header po ps =
      (if ¬ (34 ≤ po / bs) then ([], .error .gptOverwrite)
       else if ¬ (0 < ps / bs ∧ ps / bs < 1024 ^ 3) then
         ([], .error (.invalidSectorCount (ps / bs)))
       else ([DevCmd.erseC fd (po / bs) (ps / bs)],
         if pySlice (make_request erseTag [fd, po / bs, ps / bs]) 4 16 ≠
             pySlice header 4 16 then .error .badEraseEcho
         else .ok ())) := rfl

/-- Counterexample for C6: on UFS geometry the gpt_lba_len-derived guard
is 6 sectors, and sector_start = 10 with sector_count = 1 satisfies the
claimed preconditions, yet wipe_partition raises the GPT-overwrite
error and issues no ERSE, because the source guard is the constant 34,
not derived from gpt_lba_len. -/
theorem wipe_gpt_guard_counterexample :
    6 ≤ 40960 / 4096 ∧ 0 < 4096 / 4096 ∧ 4096 / 4096 < 2 ^ 30 ∧
    wipe_partition 4096 0 [] 40960 4096 = ([], .error .gptOverwrite) := by
  refine ⟨by norm_num, by norm_num, by norm_num, ?_⟩
  decide

/-- C6 (amended): the wipe operation fails fatally before issuing ERSE
whenever sector_start = part_offset / block_size is below the fixed
constant 34 (the EMMC GPT table length, not derived from the negotiated
gpt_lba_len) or sector_count is not strictly between 0 and 2^30; when
sector_start >= 34 and 0 < sector_count < 2^30 the ERSE command is
issued with exactly those sector arguments. -/
theorem wipe_partition_guard (bs fd : Nat) (header : List Nat) (po ps : Nat) :
    (po / bs < 34 → wipe_partition bs fd header po ps = ([], .error .gptOverwrite)) ∧
    (34 ≤ po / bs → ¬ (0 < ps / bs ∧ ps / bs < 2 ^ 30) →
      wipe_partition bs fd header po ps = ([], .error (.invalidSectorCount (ps / bs)))) ∧
    (34 ≤ po / bs → 0 < ps / bs → ps / bs < 2 ^ 30 →
      (wipe_partition bs fd header po ps).1 = [DevCmd.erseC fd (po / bs) (ps / bs)]) := by
  have h30 : (1024 : Nat) ^ 3 = 2 ^ 30 := by norm_num
  refine ⟨?_, ?_, ?_⟩
  · intro h
    rw [wipe_partition_eq, if_pos (by omega)]
  · intro h1 h2
    rw [wipe_partition_eq, if_neg (by omega), if_pos (by rw [h30]; exact h2)]
  · intro h1 h2 h3
    rw [wipe_partition_eq, if_neg (by omega), if_neg (by rw [h30]; exact fun hc => hc ⟨h2, h3⟩)]

/-- Witness for wipe_partition_guard: guards passing, ERSE issued. -/
theorem wipe_partition_guard_witness :
    (wipe_partition 4096 7 [] 139264 4096).1 =
      [DevCmd.erseC 7 (139264 / 4096) (4096 / 4096)] :=
  (wipe_partition_guard 4096 7 [] 139264 4096).2.2 (by norm_num) (by norm_num)
    (by norm_num)

theorem write_partition_eq (proto bs lba fd : Nat) (hdrs : Nat → List Nat)
    (po ps : Nat) (file : List Nat) :
    write_partition proto bs lba fd hdrs po ps file =
      (if po % bs ≠ 0 then ([], .error .unaligned)
       else if ¬ (lba * bs ≤ po) then ([], .error .gptOverwrite)
       else if pyHex proto = pyHex 0x1000001 then
         if file.length > ps then ([], .error (.oversize file.length ps))
         else write_loop bs fd (po + ps) file hdrs (bs * (po / bs)) 0 0x20 0
       else ([], .error (.unsupportedFw proto))) := rfl

theorem write_misc_partition_eq (proto bs lba maxc fd : Nat) (dev : Nat → Nat)
    (parseMisc : List Nat → Nat) (po ps : Nat) (file : List Nat) :
    write_misc_partition proto bs lba maxc fd dev parseMisc po ps file =
      (if po % bs ≠ 0 then ([], .error .unaligned)
       else if ¬ (lba * bs ≤ po) then ([], .error .gptOverwrite)
       else if file.length > ps then ([], .error (.oversize file.length ps))
       else ((get_partitions_model dev proto bs lba maxc).1.map
           (fun r => DevCmd.readC r.1 r.2.1 r.2.2) ++
         misc_loop bs fd (parseMisc (get_partitions_model dev proto bs lba maxc).2)
           (po + ps) file (bs * (po / bs)) 0, .ok ())) := rfl

/-- C4: every precondition violation — unaligned write offset, a write
or wipe offset inside the GPT-reserved region, an oversized restore
source, or invalid erase sector bounds — makes the operation fail with
an error before any device command is issued (the emitted command trace
is empty). -/
theorem preconditions_before_io (proto bs lba fd maxc : Nat) (hdrs : Nat → List Nat)
    (po ps : Nat) (file : List Nat) (dev : Nat → Nat) (parseMisc : List Nat → Nat)
    (header : List Nat) (hbs : 0 < bs) (hlba : lba ≤ 34) :
    (po % bs ≠ 0 →
      write_partition proto bs lba fd hdrs po ps file = ([], .error .unaligned)) ∧
    (po < lba * bs → (write_partition proto bs lba fd hdrs po ps file).1 = [] ∧
      ∃ e, (write_partition proto bs lba fd hdrs po ps file).2 = .error e) ∧
    (ps < file.length → (write_partition proto bs lba fd hdrs po ps file).1 = [] ∧
      ∃ e, (write_partition proto bs lba fd hdrs po ps file).2 = .error e) ∧
    (po % bs ≠ 0 →
      write_misc_partition proto bs lba maxc fd dev parseMisc po ps file =
        ([], .error .unaligned)) ∧
    (po < lba * bs →
      (write_misc_partition proto bs lba maxc fd dev parseMisc po ps file).1 = [] ∧
      ∃ e, (write_misc_partition proto bs lba maxc fd dev parseMisc po ps file).2 =
        .error e) ∧
    (ps < file.length →
      (write_misc_partition proto bs lba maxc fd dev parseMisc po ps file).1 = [] ∧
      ∃ e, (write_misc_partition proto bs lba maxc fd dev parseMisc po ps file).2 =
        .error e) ∧
    (po < lba * bs → wipe_partition bs fd header po ps = ([], .error .gptOverwrite)) ∧
    (¬ (0 < ps / bs ∧ ps / bs < 2 ^ 30) → (wipe_partition bs fd header po ps).1 = [] ∧
      ∃ e, (wipe_partition bs fd header po ps).2 = .error e) := by
  have h30 : (1024 : Nat) ^ 3 = 2 ^ 30 := by norm_num
  refine ⟨?_, ?_, ?_, ?_, ?_, ?_, ?_, ?_⟩
  · intro h
    rw [write_partition_eq, if_pos h]
  · intro h
    rw [write_partition_eq]
    by_cases h1 : po % bs ≠ 0
    · rw [if_pos h1]
      exact ⟨rfl, _, rfl⟩
    · rw [if_neg h1, if_pos (by omega)]
      exact ⟨rfl, _, rfl⟩
  · intro h
    rw [write_partition_eq]
    by_cases h1 : po % bs ≠ 0
    · rw [if_pos h1]
      exact ⟨rfl, _, rfl⟩
    · rw [if_neg h1]
      by_cases h2 : ¬ (lba * bs ≤ po)
      · rw [if_pos h2]
        exact ⟨rfl, _, rfl⟩
      · rw [if_neg h2]
        by_cases h3 : pyHex proto = pyHex 0x1000001
        · rw [if_pos h3, if_pos (by omega)]
          exact ⟨rfl, _, rfl⟩
        · rw [if_neg h3]
          exact ⟨rfl, _, rfl⟩
  · intro h
    rw [write_misc_partition_eq, if_pos h]
  · intro h
    rw [write_misc_partition_eq]
    by_cases h1 : po % bs ≠ 0
    · rw [if_pos h1]
      exact ⟨rfl, _, rfl⟩
    · rw [if_neg h1, if_pos (by omega)]
      exact ⟨rfl, _, rfl⟩
  · intro h
    rw [write_misc_partition_eq]
    by_cases h1 : po % bs ≠ 0
    · rw [if_pos h1]
      exact ⟨rfl, _, rfl⟩
    · rw [if_neg h1]
      by_cases h2 : ¬ (lba * bs ≤ po)
      · rw [if_pos h2]
        exact ⟨rfl, _, rfl⟩
      · rw [if_neg h2, if_pos (by omega)]
        exact ⟨rfl, _, rfl⟩
  · intro h
    have hss : po / bs < 34 := by
      have : po / bs < lba := by
        rw [Nat.div_lt_iff_lt_mul hbs]
        omega
      omega
    rw [wipe_partition_eq, if_pos (by omega)]
  · intro h
    rw [wipe_partition_eq]
    by_cases h1 : 34 ≤ po / bs
    · rw [if_neg (by omega), if_pos (by rw [h30]; exact h)]
      exact ⟨rfl, _, rfl⟩
    · rw [if_pos (by omega)]
      exact ⟨rfl, _, rfl⟩

/-- Witness for preconditions_before_io: an unaligned restore offset is
rejected before any WRTE. -/
theorem preconditions_before_io_witness :
    write_partition 0x1000001 4096 6 0 (fun _ => []) 1 4096 [9] =
      ([], .error .unaligned) :=
  (preconditions_before_io 0x1000001 4096 6 0 3 (fun _ => []) 1 4096 [9]
    (fun _ => 0) (fun _ => 0) [] (by norm_num) (by norm_num)).1 (by norm_num)

/-- Counterexample for C8: with an unsupported protocol version but an
unaligned part_offset, write_partition raises the alignment error, not
an error naming the unsupported-write limitation, so the claim that
every call under another protocol version fails with the
capability-gap message is false (no WRTE is issued either way). -/
theorem write_partition_unsupported_counterexample :
    write_partition 0x1000002 4096 6 0 (fun _ => []) 1 4096 [9] =
      ([], .error .unaligned) ∧
    Err.unaligned ≠ Err.unsupportedFw 0x1000002 := by
  constructor
  · rw [write_partition_eq, if_pos (by norm_num)]
  · decide

/-- C8 (amended): direct restore performs device writes only when the
negotiated protocol version equals the legacy value 0x1000001; for
every other protocol version no WRTE command is ever issued, and —
provided the alignment and GPT-region preconditions hold — the raised
fatal error is the one naming the unsupported-write limitation (when a
precondition is violated, its own error fires first). -/
theorem write_partition_capability (proto bs lba fd : Nat) (hdrs : Nat → List Nat)
    (po ps : Nat) (file : List Nat) :
    ((write_partition proto bs lba fd hdrs po ps file).1 ≠ [] → proto = 0x1000001) ∧
    (proto ≠ 0x1000001 →
      (write_partition proto bs lba fd hdrs po ps file).1 = [] ∧
      (po % bs = 0 → lba * bs ≤ po →
        (write_partition proto bs lba fd hdrs po ps file).2 =
          .error (.unsupportedFw proto))) := by
  constructor
  · intro hne
    rw [write_partition_eq] at hne
    by_cases h1 : po % bs ≠ 0
    · rw [if_pos h1] at hne
      exact absurd rfl hne
    · rw [if_neg h1] at hne
      by_cases h2 : ¬ (lba * bs ≤ po)
      · rw [if_pos h2] at hne
        exact absurd rfl hne
      · rw [if_neg h2] at hne
        by_cases h3 : pyHex proto = pyHex 0x1000001
        · exact pyHex_injective h3
        · rw [if_neg h3] at hne
          exact absurd rfl hne
  · intro hne
    have hpy : pyHex proto ≠ pyHex 0x1000001 := fun h => hne (pyHex_injective h)
    rw [write_partition_eq]
    by_cases h1 : po % bs ≠ 0
    · rw [if_pos h1]
      exact ⟨rfl, fun ha _ => absurd ha h1⟩
    · rw [if_neg h1]
      by_cases h2 : ¬ (lba * bs ≤ po)
      · rw [if_pos h2]
        exact ⟨rfl, fun _ hge => absurd hge h2⟩
      · rw [if_neg h2, if_neg hpy]
        exact ⟨rfl, fun _ _ => rfl⟩

/-- Witness for write_partition_capability: an aligned, GPT-safe restore
under protocol 0x1000002 raises exactly the unsupported-firmware
error. -/
theorem write_partition_capability_witness :
    (write_partition 0x1000002 4096 6 0 (fun _ => []) 24576 4096 [9]).2 =
      .error (.unsupportedFw 0x1000002) :=
  ((write_partition_capability 0x1000002 4096 6 0 (fun _ => []) 24576 4096 [9]).2
    (by norm_num)).2 (by norm_num) (by norm_num)

/-- C10: resuming a dump into an existing local file whose size is not
a multiple of the block size fails on the sink-opening assertion before
any device read; when the size is block-aligned, the aligned-down
partition start plus the resume length is itself block-aligned, so the
unaligned-leading-bytes branch of dump_partition is never taken on
account of the resume length (the reads start directly with the chunk
loop; the branch could only ever be reached through the read offset,
which is aligned down from part_offset before the resume length is
added). -/
theorem dump_resume_alignment (dev : Nat → Nat) (bs maxc s po ps : Nat) :
    (s % bs ≠ 0 →
      dump_partition dev bs maxc (some s) po ps = ([], .error (.unalignedSink s))) ∧
    (s % bs = 0 →
      (bs * (po / bs) + s) % bs = 0 ∧
      dump_partition dev bs maxc (some s) po ps =
        ((cbs_loop dev bs maxc (po + ps) none (bs * (po / bs) + s)).1, .ok ())) := by
  constructor
  · intro h
    have ho : open_local_writable bs (some s) = .error (.unalignedSink s) := by
      simp only [open_local_writable]
      rw [if_pos h]
    unfold dump_partition
    rw [ho]
  · intro h
    have halign : (bs * (po / bs) + s) % bs = 0 := by
      rw [Nat.mul_add_mod]
      exact h
    refine ⟨halign, ?_⟩
    have ho : open_local_writable bs (some s) = .ok s := by
      simp only [open_local_writable]
      rw [if_neg (by omega)]
    unfold dump_partition
    rw [ho]
    simp only [halign]
    rw [if_neg (by simp)]

/-- Witness for dump_resume_alignment: a block-aligned resume file of
one block dumps with no unaligned leading read. -/
theorem dump_resume_alignment_witness :
    (4096 * (8192 / 4096) + 4096) % 4096 = 0 ∧
    dump_partition (fun _ => 0) 4096 3 (some 4096) 8192 16384 =
      ((cbs_loop (fun _ => 0) 4096 3 (8192 + 16384) none
        (4096 * (8192 / 4096) + 4096)).1, .ok ()) :=
  (dump_resume_alignment (fun _ => 0) 4096 3 4096 8192 16384).2 (by norm_num)
